import Mathlib

/-!
Verification development for the vite-console-forward-plugin repository.

The development shallowly embeds the two halves of the plugin:
  * the client-side capture/buffer/transport pipeline that the plugin's
    `load` hook emits as the `virtual:console-forward` module
    (src/unnamed/part_000, lines 167-380), and
  * the server-side ingestion endpoint and per-module formatting
    (src/unnamed/part_000, lines 476-581),
together with the injection hooks `transform` and `transformIndexHtml`
(src/unnamed/part_000, lines 384-474).

JavaScript runtime values reaching a wrapped console method are modelled by
the inductive type `JSValue`; the platform primitives the code calls
(JSON round-trips, `fetch`, micromatch, timers) are modelled as explicit
data (an `Option` snapshot, a `FetchOutcome`, a matcher parameter, a
`timerPending` flag).  Code that can throw a JavaScript exception is
embedded in the `Except String` monad; the catch blocks of the source are
the corresponding `Except` handlers.
-/

namespace ConsoleForward

/-- JSON values, as produced by a successful `JSON.parse(JSON.stringify(arg))`
round-trip.  Numbers are modelled by `Int` (no claim depends on numeric
fidelity). -/
inductive Json where
  | null : Json
  | bool (b : Bool) : Json
  | num (n : Int) : Json
  | str (s : String) : Json
  | arr (xs : List Json) : Json
  | obj (fs : List (String × Json)) : Json
deriving Repr

/-- The `stack` property of a JavaScript object, as used by `createLogEntry`
(src/unnamed/part_000 lines 198-208): the code tests
`typeof arg.stack === "string"`, the truthiness `if (arg.stack)`, and calls
`arg.stack.toString()`. -/
inductive StackField where
  /-- the property is `undefined` (absent): falsy, not a string -/
  | absent : StackField
  /-- the property is a string value (possibly empty, hence possibly falsy) -/
  | strVal (s : String) : StackField
  /-- a truthy non-string value with the given `toString()` form -/
  | otherTruthy (toStr : String) : StackField
  /-- a falsy non-string value (`0`, `false`, `null`, ...) -/
  | otherFalsy : StackField
deriving Repr, DecidableEq

/-- A non-null JavaScript object (`typeof arg === "object"`), carrying the
observations `createLogEntry` makes of it: whether it is an `Error`
instance, its `stack` property, its string form (`arg.toString()`, which is
also what `String(arg)` yields for objects), and the result of
`JSON.parse(JSON.stringify(arg))` — `none` when the round-trip throws
(circular structure, BigInt, ...). -/
structure JSObj where
  isError : Bool
  stack : StackField
  toStr : String
  snapshot : Option Json
deriving Repr

/-- A JavaScript value passed as an argument to a wrapped console method.
`prim` covers values that are neither `undefined`, `null`, strings nor
objects (numbers, booleans, symbols, functions, ...): on those, property
access `arg.stack` yields `undefined` and `String(arg)` yields `strForm`. -/
inductive JSValue where
  | undef : JSValue
  | null : JSValue
  | str (s : String) : JSValue
  | prim (strForm : String) : JSValue
  | obj (o : JSObj) : JSValue
deriving Repr

/-- Truthiness of the `stack` property, as tested by `if (arg.stack)`. -/
def jsStackTruthy : StackField → Bool
  | StackField.absent => false
  | StackField.strVal s => s ≠ ""
  | StackField.otherTruthy _ => true
  | StackField.otherFalsy => false

/-- `arg.stack.toString()` for a truthy stack property. -/
def jsStackToString : StackField → String
  | StackField.absent => "undefined"
  | StackField.strVal s => s
  | StackField.otherTruthy t => t
  | StackField.otherFalsy => ""

/-- The classification `arg instanceof Error || typeof arg.stack === "string"`
of src/unnamed/part_000 line 198, for a non-null object. -/
def isErrorLike (o : JSObj) : Bool :=
  o.isError || (match o.stack with
    | StackField.strVal _ => true
    | _ => false)

/-- `stack.startsWith(stringifiedError)` — JavaScript `String.prototype.startsWith`,
modelled on the character sequence. -/
def jsStartsWith (s p : String) : Bool :=
  p.data.isPrefixOf s.data

/-- `stack.slice(n)` for a non-negative `n` — drop the first `n` code units. -/
def jsDrop (s : String) (n : Nat) : String :=
  ⟨s.data.drop n⟩

/-- `stack.trimStart()` — remove leading whitespace. -/
def jsTrimStart (s : String) : String :=
  ⟨s.data.dropWhile Char.isWhitespace⟩

/-- The stack text an error-like argument contributes, before the final
non-emptiness check (src/unnamed/part_000 lines 201-204): the raw stack
with one leading copy of the stringified error stripped (when present) and
leading whitespace trimmed. -/
def stackResidual (o : JSObj) : String :=
  let stack := jsStackToString o.stack
  if jsStartsWith stack o.toStr then
    jsTrimStart (jsDrop stack o.toStr.length)
  else
    stack

/-- The 1-based placeholder token `"[extra#" + extra.length + "]"`
(src/unnamed/part_000 line 217). -/
def placeholderStr (n : Nat) : String :=
  "[extra#" ++ toString n ++ "]"

/-- One step of the `args.map((arg) => ...)` callback of `createLogEntry`
(src/unnamed/part_000 lines 195-220), acting on the current `stacks` and
`extra` accumulators.  The `Except.error` case is the uncaught `TypeError`
raised by evaluating `arg.stack` when `arg` is `null`: `null` is not pre-empted
by the `arg === undefined` check, is not a string, is not an `Error`
instance, and property access on `null` throws before the later
`arg !== null` guard is reached. -/
def formatArg (arg : JSValue) (sAcc : List String) (extra : List Json) :
    Except String (String × List String × List Json) :=
  match arg with
  | JSValue.undef => Except.ok ("undefined", sAcc, extra)
  | JSValue.str s => Except.ok (s, sAcc, extra)
  | JSValue.null =>
      Except.error "TypeError: cannot read properties of null (reading stack)"
  | JSValue.prim strForm => Except.ok (strForm, sAcc, extra)
  | JSValue.obj o =>
      if isErrorLike o then
        let stringifiedError := o.toStr
        let newStacks :=
          if jsStackTruthy o.stack then
            let stack := stackResidual o
            if stack ≠ "" then sAcc ++ [stack] else sAcc
          else sAcc
        Except.ok (stringifiedError, newStacks, extra)
      else
        let newExtra :=
          match o.snapshot with
          | some j => extra ++ [j]
          | none => extra ++ [Json.str o.toStr]
        Except.ok (placeholderStr newExtra.length, sAcc, newExtra)

/-- Processes the argument list left to right, threading the `stacks` and
`extra` accumulators exactly as the `args.map` callback mutates them, and
returning the list of message segments (in argument order) together with
the final accumulators.  A thrown exception propagates. -/
def processArgs : List JSValue → List String → List Json →
    Except String (List String × List String × List Json)
  | [], sAcc, extra => Except.ok ([], sAcc, extra)
  | a :: rest, sAcc, extra =>
      match formatArg a sAcc extra with
      | Except.error e => Except.error e
      | Except.ok (part, sAcc1, extra1) =>
          match processArgs rest sAcc1 extra1 with
          | Except.error e => Except.error e
          | Except.ok (parts, sAcc2, extra2) =>
              Except.ok (part :: parts, sAcc2, extra2)

/-- `Array.prototype.join(sep)`. -/
def jsJoin (sep : String) : List String → String
  | [] => ""
  | [x] => x
  | x :: y :: rest => x ++ sep ++ jsJoin sep (y :: rest)

/-- The normalized log record built by `createLogEntry`
(src/unnamed/part_000 lines 222-231).  The `timestamp`, `url` and
`userAgent` fields are ambient environment reads (`new Date()`,
`window.location?.href`, `navigator.userAgent`) that cannot throw and that
no claim constrains; they are not modelled. -/
structure LogEntry where
  level : String
  message : String
  module : String
  stackTraces : List String
  extra : List Json
deriving Repr

/-- `createLogEntry(level, args)` (src/unnamed/part_000 lines 191-232),
with the current module context passed explicitly.  The result is
`Except.error` exactly when the argument-formatting loop throws. -/
def createLogEntry (level : String) (moduleCtx : String) (args : List JSValue) :
    Except String LogEntry :=
  match processArgs args [] [] with
  | Except.error e => Except.error e
  | Except.ok (parts, sAcc, extra) =>
      Except.ok
        { level := level
          message := jsJoin " " parts
          module := moduleCtx
          stackTraces := sAcc
          extra := extra }

/-! ## Batching transport (src/unnamed/part_000 lines 186-270, 377) -/

/-- `MAX_BUFFER_SIZE` (src/unnamed/part_000 line 189). -/
def MAX_BUFFER_SIZE : Nat := 50

/-- `FLUSH_DELAY`, the coalescing delay passed to `setTimeout`
(src/unnamed/part_000 line 188), in milliseconds. -/
def FLUSH_DELAY : Nat := 100

/-- The period of the recurring safety-net flush,
`setInterval(flushLogs, 10000)` (src/unnamed/part_000 line 377), in the
same milliseconds as `FLUSH_DELAY`. -/
def safetyFlushInterval : Nat := 10000

/-- The client-side transport state: the `logBuffer` array, whether a
`flushTimeout` timer is pending (`flushTimeout !== null`), and the batches
handed to `sendLogs` so far (in order), modelling the fire-and-forget
`sendLogs(logsToSend)` calls. -/
structure BufferState where
  buffer : List LogEntry
  timerPending : Bool
  flushes : List (List LogEntry)
deriving Repr

/-- The state before any record is enqueued: `logBuffer = []`,
`flushTimeout = null`. -/
def initialBufferState : BufferState :=
  { buffer := [], timerPending := false, flushes := [] }

/-- `flushLogs()` (src/unnamed/part_000 lines 250-259): if the buffer is
empty, do nothing; otherwise snapshot the buffer as one batch, clear it,
hand the snapshot to `sendLogs`, and clear any pending timer. -/
def flushLogs (st : BufferState) : BufferState :=
  if st.buffer.length = 0 then st
  else
    { buffer := []
      timerPending := false
      flushes := st.flushes ++ [st.buffer] }

/-- `addToBuffer(entry)` (src/unnamed/part_000 lines 261-270): push the
entry; if the buffer has reached `MAX_BUFFER_SIZE`, flush immediately and
return; otherwise schedule a flush timer if none is pending. -/
def addToBuffer (st : BufferState) (entry : LogEntry) : BufferState :=
  let st1 := { st with buffer := st.buffer ++ [entry] }
  if MAX_BUFFER_SIZE ≤ st1.buffer.length then
    flushLogs st1
  else if st1.timerPending then st1
  else { st1 with timerPending := true }

/-- Enqueue a sequence of records in order. -/
def enqueueAll (st : BufferState) (es : List LogEntry) : BufferState :=
  es.foldl addToBuffer st

/-- The outcome of the `fetch` call in `sendLogs`: the promise either
resolves with some HTTP status (any status — the code never inspects the
response), or rejects (network error, server absent, connection refused). -/
inductive FetchOutcome where
  | ok (status : Nat) : FetchOutcome
  | networkError : FetchOutcome
deriving Repr, DecidableEq

/-- `sendLogs(logs)` (src/unnamed/part_000 lines 234-248), given the
delivery outcome of its `fetch` and whether a console with a truthy `warn`
exists.  The only observable effect is whether the local
`[Console Forward] Failed to send logs` warning is emitted; the function
has no access to the buffer and performs no retry. -/
def sendLogs (silentOnError consoleWarnAvail : Bool) (outcome : FetchOutcome)
    (logs : List LogEntry) : Bool :=
  match outcome with
  | FetchOutcome.ok _ => false
  | FetchOutcome.networkError => !silentOnError && consoleWarnAvail

/-! ## Server-side ingestion and formatting (src/unnamed/part_000 lines 476-581) -/

/-- A log record as the ingestion endpoint reads it off the parsed JSON
body.  Optional fields model both JSON `null` and absence (`undefined`),
which the code treats alike through truthiness tests; `stackTraces` embeds
the wire field `stacks` and `extra` the wire field `extra`. -/
structure WireLog where
  level : String
  message : String
  url : Option String
  module : Option String
  stackTraces : Option (List String)
  extra : Option (List Json)
deriving Repr

/-- One call dispatched to a module sink (a cached Vite logger): the
channel that was invoked, the formatted message, and for the error channel
the synthetic `new Error(log.stacks.join("\n"))` argument (by its message)
or `null`. -/
inductive SinkCall where
  | errorCall (message : String) (syntheticError : Option String) : SinkCall
  | warnCall (message : String) : SinkCall
  | infoCall (message : String) : SinkCall
deriving Repr, DecidableEq

/-- The server-side mutable state shared across requests: the keys of the
`loggerCache` map in creation order, and every sink call dispatched so far,
tagged with the sink key. -/
structure ServerState where
  sinks : List String
  calls : List (String × SinkCall)
deriving Repr, DecidableEq

/-- `getOrCreateLogger(moduleName)` (src/unnamed/part_000 lines 110-120):
create the logger on first use of the key, otherwise reuse the cached one. -/
def getOrCreateLogger (st : ServerState) (moduleName : String) : ServerState :=
  if moduleName ∈ st.sinks then st
  else { st with sinks := st.sinks ++ [moduleName] }

/-- `log.module || "unknown"` (src/unnamed/part_000 line 515): an absent,
`null` or empty-string module is falsy and routes to `"unknown"`. -/
def moduleKeyOf (log : WireLog) : String :=
  match log.module with
  | some s => if s = "" then "unknown" else s
  | none => "unknown"

/-- The list behind `log.stacks && log.stacks.length > 0`: absent or
`null` behaves as the empty list. -/
def stacksListOf (log : WireLog) : List String :=
  match log.stackTraces with
  | some l => l
  | none => []

/-- The list behind `log.extra && log.extra.length > 0`. -/
def extraListOf (log : WireLog) : List Json :=
  match log.extra with
  | some l => l
  | none => []

/-- `s.split("\n")` — JavaScript splitting on newline; an empty string
yields `[""]`. -/
def splitLinesAux : List Char → List Char → List String
  | [], acc => [⟨acc.reverse⟩]
  | c :: rest, acc =>
      if c = '\n' then ⟨acc.reverse⟩ :: splitLinesAux rest []
      else splitLinesAux rest (c :: acc)

/-- `s.split("\n")`. -/
def splitLines (s : String) : List String :=
  splitLinesAux s.data []

/-- Escaping of one character inside a JSON string literal, as
`JSON.stringify` performs it (control characters other than the common
escapes are left untouched in this model; no claim depends on them). -/
def escapeJsonChar (c : Char) : String :=
  if c = '"' then "\\\"" else if c = '\\' then "\\\\"
  else if c = '\n' then "\\n" else if c = '\t' then "\\t"
  else if c = '\r' then "\\r" else String.singleton c

/-- JSON string-literal escaping. -/
def escapeJsonString (s : String) : String :=
  s.data.foldl (fun acc c => acc ++ escapeJsonChar c) ""

/-- `n` spaces. -/
def indentStr (n : Nat) : String :=
  ⟨List.replicate n ' '⟩

mutual

/-- `JSON.stringify(v, null, 2)` at nesting depth `d` — the two-space
pretty printer the endpoint applies to `log.extra`
(src/unnamed/part_000 line 537).  A model of the platform function. -/
def stringifyPretty : Json → Nat → String
  | Json.null, _ => "null"
  | Json.bool true, _ => "true"
  | Json.bool false, _ => "false"
  | Json.num n, _ => toString n
  | Json.str s, _ => "\"" ++ escapeJsonString s ++ "\""
  | Json.arr [], _ => "[]"
  | Json.arr (x :: xs), d =>
      "[\n" ++ stringifyItems (x :: xs) (d + 1) ++ "\n" ++ indentStr (2 * d) ++ "]"
  | Json.obj [], _ => "\x7b\x7d"
  | Json.obj (f :: fs), d =>
      "\x7b\n" ++ stringifyFields (f :: fs) (d + 1) ++ "\n" ++ indentStr (2 * d) ++ "\x7d"

/-- Array elements, one per line, comma-separated. -/
def stringifyItems : List Json → Nat → String
  | [], _ => ""
  | [x], d => indentStr (2 * d) ++ stringifyPretty x d
  | x :: y :: rest, d =>
      indentStr (2 * d) ++ stringifyPretty x d ++ ",\n" ++ stringifyItems (y :: rest) d

/-- Object fields, one per line, comma-separated. -/
def stringifyFields : List (String × Json) → Nat → String
  | [], _ => ""
  | [(k, v)], d => indentStr (2 * d) ++ "\"" ++ escapeJsonString k ++ "\": " ++ stringifyPretty v d
  | (k, v) :: g :: rest, d =>
      indentStr (2 * d) ++ "\"" ++ escapeJsonString k ++ "\": " ++ stringifyPretty v d ++
        ",\n" ++ stringifyFields (g :: rest) d

end

/-- The formatted terminal message built for one record
(src/unnamed/part_000 lines 516-541): the `[level] message (url)` base
line, then the indented stack frames, then the indented pretty-printed
extra data. -/
def formatMsg (log : WireLog) : String :=
  let location :=
    match log.url with
    | some u => if u = "" then "" else " (" ++ u ++ ")"
    | none => ""
  let base := "[" ++ log.level ++ "] " ++ log.message ++ location
  let m1 :=
    if 0 < (stacksListOf log).length then
      base ++ "\n" ++
        jsJoin "\n"
          ((stacksListOf log).map
            (fun stack => jsJoin "\n" ((splitLines stack).map (fun line => "    " ++ line))))
    else base
  if 0 < (extraListOf log).length then
    m1 ++ "\n    Extra data: " ++
      jsJoin "\n"
        ((splitLines (stringifyPretty (Json.arr (extraListOf log)) 0)).map
          (fun line => "    " ++ line))
  else m1

/-- The `switch (log.level)` dispatch (src/unnamed/part_000 lines 545-565):
`error` goes to the error channel with the synthetic error rebuilt from the
joined stack frames when any exist, `warn` to the warn channel, `info` and
`debug` both to the info channel, anything else to the info channel. -/
def dispatchCall (log : WireLog) : SinkCall :=
  let msg := formatMsg log
  if log.level = "error" then
    SinkCall.errorCall msg
      (if 0 < (stacksListOf log).length then some (jsJoin "\n" (stacksListOf log)) else none)
  else if log.level = "warn" then SinkCall.warnCall msg
  else if log.level = "info" then SinkCall.infoCall msg
  else if log.level = "debug" then SinkCall.infoCall msg
  else SinkCall.infoCall msg

/-- One element of the parsed `logs` array.  `good` carries a record whose
field accesses all succeed; `bad` is a value on which the `forEach`
callback throws (e.g. `null`, where `log.module` raises a `TypeError`). -/
inductive RecordVal where
  | good (log : WireLog) : RecordVal
  | bad : RecordVal
deriving Repr

/-- The body of the `logs.forEach` callback (src/unnamed/part_000 lines
514-566) on one record: create or reuse the module sink, format, dispatch.
`none` models the callback throwing. -/
def processRecord (st : ServerState) : RecordVal → Option ServerState
  | RecordVal.bad => none
  | RecordVal.good log =>
      let key := moduleKeyOf log
      let st1 := getOrCreateLogger st key
      some { st1 with calls := st1.calls ++ [(key, dispatchCall log)] }

/-- Iterate the records in arrival order; on a throw, stop with the state
reached so far (the sinks already written to keep their output) and report
that an exception escaped the `forEach`. -/
def processRecords (st : ServerState) : List RecordVal → ServerState × Bool
  | [] => (st, false)
  | r :: rs =>
      match processRecord st r with
      | none => (st, true)
      | some st1 => processRecords st1 rs

/-- The result of reading the request body and evaluating
`JSON.parse(body)` followed by the destructuring and `logs.forEach`:
either the parse itself throws (`notJson`), or the parsed value has no
iterable `logs` so `logs.forEach` throws before any record is visited
(`badShape`), or `logs` is an array of records (`logsArr`). -/
inductive ParsedBody where
  | notJson : ParsedBody
  | badShape : ParsedBody
  | logsArr (records : List RecordVal) : ParsedBody

/-- An HTTP response as written by `res.writeHead` / `res.end`. -/
structure HttpResponse where
  status : Nat
  body : String
deriving Repr, DecidableEq

/-- `JSON.stringify({ error: "Invalid JSON" })`. -/
def invalidJsonBody : String := "\x7b\"error\":\"Invalid JSON\"\x7d"

/-- `JSON.stringify({ success: true })`. -/
def successBody : String := "\x7b\"success\":true\x7d"

/-- The `request.on("end", ...)` handler (src/unnamed/part_000 lines
509-579): parse, iterate, answer 200 on success; any exception lands in
the catch block, which logs a diagnostic and answers 400 with the
`Invalid JSON` body. -/
def handleEnd (st : ServerState) (body : ParsedBody) : ServerState × HttpResponse :=
  match body with
  | ParsedBody.notJson => (st, { status := 400, body := invalidJsonBody })
  | ParsedBody.badShape => (st, { status := 400, body := invalidJsonBody })
  | ParsedBody.logsArr rs =>
      let res := processRecords st rs
      if res.2 then (res.1, { status := 400, body := invalidJsonBody })
      else (res.1, { status := 200, body := successBody })

/-! ## Bootstrap injection (src/unnamed/part_000 lines 97-101, 384-474) -/

/-- `forwardModuleId` (src/unnamed/part_000 line 99), the activation
marker whose presence in an artifact blocks re-injection. -/
def forwardModuleId : String := "virtual:console-forward"

/-- Substring search on character lists (the engine of
`String.prototype.includes`). -/
def charsContains : List Char → List Char → Bool
  | s, sub =>
    if sub.isPrefixOf s then true
    else
      match s with
      | [] => false
      | _ :: rest => charsContains rest sub

/-- `s.includes(sub)` — JavaScript substring containment. -/
def jsIncludes (s sub : String) : Bool :=
  charsContains s.data sub.data

/-- `s.endsWith(p)`. -/
def jsEndsWith (s p : String) : Bool :=
  p.data.isSuffixOf s.data

/-- `s.replace(pat, rep)` with a string pattern — JavaScript replaces only
the first occurrence, or returns the string unchanged when the pattern does
not occur. -/
def charsReplaceFirst : List Char → List Char → List Char → List Char
  | s, pat, rep =>
    if pat.isPrefixOf s then rep ++ s.drop pat.length
    else
      match s with
      | [] => []
      | c :: rest => c :: charsReplaceFirst rest pat rep

/-- `s.replace(pat, rep)` for a string pattern (first occurrence only). -/
def jsReplaceFirst (s pat rep : String) : String :=
  ⟨charsReplaceFirst s.data pat.data rep.data⟩

/-- The import preamble `transform` prepends to a matching JS/TS module
(src/unnamed/part_000 lines 416-420). -/
def injectedPreamble (moduleContext : String) : String :=
  "import \x7b setModuleContext \x7d from \x27virtual:console-forward\x27;\n" ++
    "setModuleContext(\x27" ++ moduleContext ++ "\x27);\n" ++
    "import \x27virtual:console-forward\x27;\n"

/-- The `<script type="module">` tag `transformIndexHtml` injects
(src/unnamed/part_000 lines 454-458). -/
def scriptTag (moduleContext : String) : String :=
  "<script type=\"module\">\n" ++
    "import \x7b setModuleContext \x7d from \x27virtual:console-forward\x27;\n" ++
    "setModuleContext(\x27" ++ moduleContext ++ "\x27);\n" ++
    "import \x27virtual:console-forward\x27;\n" ++
    "</script>"

/-- The `transform(code, id)` hook (src/unnamed/part_000 lines 384-422).
`isMatch` abstracts `micromatch.isMatch(id, patterns)`; `moduleExtractor`
is the configured module-name extractor.  `none` models returning
`undefined`, i.e. leaving the artifact unchanged. -/
def transform (enabled : Bool) (isMatch : String → List String → Bool)
    (injectPatterns excludePatterns : List String)
    (moduleExtractor : String → String) (code id : String) : Option String :=
  if !enabled || injectPatterns.length = 0 then none
  else if jsEndsWith id ".html" then none
  else if 0 < excludePatterns.length && isMatch id excludePatterns then none
  else if isMatch id injectPatterns then
    if jsIncludes code forwardModuleId then none
    else some (injectedPreamble (moduleExtractor id) ++ code)
  else none

/-- The `transformIndexHtml(html, ctx)` hook (src/unnamed/part_000 lines
425-474): same selection logic, then the script tag is placed after
`<head>`, else after `<body>`, else after `<html>`, else prepended. -/
def transformIndexHtml (enabled : Bool) (isMatch : String → List String → Bool)
    (injectPatterns excludePatterns : List String)
    (moduleExtractor : String → String) (html id : String) : Option String :=
  if !enabled || injectPatterns.length = 0 then none
  else if 0 < excludePatterns.length && isMatch id excludePatterns then none
  else if isMatch id injectPatterns then
    if jsIncludes html forwardModuleId then none
    else
      let tag := scriptTag (moduleExtractor id)
      if jsIncludes html "<head>" then
        some (jsReplaceFirst html "<head>" ("<head>\n" ++ tag))
      else if jsIncludes html "<body>" then
        some (jsReplaceFirst html "<body>" ("<body>\n" ++ tag))
      else if jsIncludes html "<html>" then
        some (jsReplaceFirst html "<html>" ("<html>\n" ++ tag))
      else some (tag ++ "\n" ++ html)
  else none

/-- A fixed record used by concrete witnesses. -/
def sampleEntry : LogEntry :=
  { level := "log", message := "x", module := "m", stackTraces := [], extra := [] }

/-- A minimal well-formed wire record used by concrete witnesses. -/
def sampleWireLog : WireLog :=
  { level := "log", message := "hi", url := none, module := none,
    stackTraces := none, extra := none }

/-- A warn-level wire record with a module name, used by concrete witnesses. -/
def sampleWarnLog : WireLog :=
  { level := "warn", message := "w", url := none, module := some "m",
    stackTraces := none, extra := none }

/-- A wire record whose module is the empty string, used by concrete
witnesses. -/
def sampleEmptyModuleLog : WireLog :=
  { level := "log", message := "hi", url := none, module := some "",
    stackTraces := none, extra := none }

/-! ## Structural lemmas about the capture pipeline -/



def extraCount : JSValue → Nat
  | JSValue.obj o => if isErrorLike o then 0 else 1
  | _ => 0

def countExtras (args : List JSValue) : Nat :=
  (args.map extraCount).sum

def partFor (a : JSValue) (extrasBefore : Nat) : String :=
  match a with
  | JSValue.undef => "undefined"
  | JSValue.str s => s
  | JSValue.null => ""
  | JSValue.prim s => s
  | JSValue.obj o => if isErrorLike o then o.toStr else placeholderStr (extrasBefore + 1)

theorem countExtras_nil : countExtras [] = 0 := rfl

theorem countExtras_cons (a : JSValue) (l : List JSValue) :
    countExtras (a :: l) = extraCount a + countExtras l := by
  simp [countExtras]

theorem formatArg_spec (a : JSValue) (s0 : List String) (e0 : List Json)
    (part : String) (s1 : List String) (e1 : List Json)
    (h : formatArg a s0 e0 = Except.ok (part, s1, e1)) :
    part = partFor a e0.length ∧
    e1.length = e0.length + extraCount a ∧
    ∃ ds de, s1 = s0 ++ ds ∧ e1 = e0 ++ de := by
  cases a with
  | undef =>
      simp only [formatArg, Except.ok.injEq, Prod.mk.injEq] at h
      obtain ⟨h1, h2, h3⟩ := h
      exact ⟨by simp [h1.symm, partFor], by simp [h3.symm, extraCount],
        ⟨[], [], by simp [h2.symm], by simp [h3.symm]⟩⟩
  | str v =>
      simp only [formatArg, Except.ok.injEq, Prod.mk.injEq] at h
      obtain ⟨h1, h2, h3⟩ := h
      exact ⟨by simp [h1.symm, partFor], by simp [h3.symm, extraCount],
        ⟨[], [], by simp [h2.symm], by simp [h3.symm]⟩⟩
  | null => simp [formatArg] at h
  | prim v =>
      simp only [formatArg, Except.ok.injEq, Prod.mk.injEq] at h
      obtain ⟨h1, h2, h3⟩ := h
      exact ⟨by simp [h1.symm, partFor], by simp [h3.symm, extraCount],
        ⟨[], [], by simp [h2.symm], by simp [h3.symm]⟩⟩
  | obj o =>
      by_cases he : isErrorLike o
      · simp only [formatArg, he, if_true, Except.ok.injEq, Prod.mk.injEq] at h
        obtain ⟨h1, h2, h3⟩ := h
        refine ⟨by simp [h1.symm, partFor, he], by simp [h3.symm, extraCount, he], ?_⟩
        by_cases ht : jsStackTruthy o.stack
        · by_cases hr : stackResidual o = ""
          · simp only [ht, if_true, hr, ne_eq, not_true_eq_false, if_false] at h2
            exact ⟨[], [], by simp [h2.symm], by simp [h3.symm]⟩
          · simp only [ht, if_true, hr, ne_eq, not_false_eq_true, if_true] at h2
            exact ⟨[stackResidual o], [], h2.symm, by simp [h3.symm]⟩
        · simp only [ht] at h2
          exact ⟨[], [], by simp [h2.symm], by simp [h3.symm]⟩
      · rw [Bool.not_eq_true] at he
        simp only [formatArg, he, Bool.false_eq_true, if_false] at h
        cases hs : o.snapshot with
        | some j =>
            simp only [hs, Except.ok.injEq, Prod.mk.injEq] at h
            obtain ⟨h1, h2, h3⟩ := h
            refine ⟨?_, by simp [h3.symm, extraCount, he], ⟨[], [j], by simp [h2.symm], h3.symm⟩⟩
            simp [h1.symm, partFor, he]
        | none =>
            simp only [hs, Except.ok.injEq, Prod.mk.injEq] at h
            obtain ⟨h1, h2, h3⟩ := h
            refine ⟨?_, by simp [h3.symm, extraCount, he], ⟨[], [Json.str o.toStr], by simp [h2.symm], h3.symm⟩⟩
            simp [h1.symm, partFor, he]



theorem processArgs_append (args : List JSValue) (s0 : List String) (e0 : List Json)
    (p s : List String) (e : List Json)
    (h : processArgs args s0 e0 = Except.ok (p, s, e)) :
    ∃ ds de, s = s0 ++ ds ∧ e = e0 ++ de := by
  induction args generalizing s0 e0 p s e with
  | nil =>
      simp only [processArgs, Except.ok.injEq, Prod.mk.injEq] at h
      exact ⟨[], [], by simp [h.2.1.symm], by simp [h.2.2.symm]⟩
  | cons a rest ih =>
      simp only [processArgs] at h
      split at h
      · cases h
      · next part s1 e1 hfa =>
          split at h
          · cases h
          · next p2 s2 e2 hrest =>
              simp only [Except.ok.injEq, Prod.mk.injEq] at h
              obtain ⟨-, hs, hev⟩ := h
              obtain ⟨-, -, ds1, de1, hs1, he1⟩ := formatArg_spec a s0 e0 part s1 e1 hfa
              obtain ⟨ds2, de2, hs2, he2⟩ := ih s1 e1 p2 s2 e2 hrest
              exact ⟨ds1 ++ ds2, de1 ++ de2,
                by rw [← hs, hs2, hs1, List.append_assoc],
                by rw [← hev, he2, he1, List.append_assoc]⟩

theorem processArgs_parts (args : List JSValue) (s0 : List String) (e0 : List Json)
    (p s : List String) (e : List Json)
    (h : processArgs args s0 e0 = Except.ok (p, s, e)) :
    ∀ i a, args[i]? = some a →
      p[i]? = some (partFor a (e0.length + countExtras (args.take i))) := by
  induction args generalizing s0 e0 p s e with
  | nil => intro i a hi; simp at hi
  | cons a0 rest ih =>
      intro i a hi
      simp only [processArgs] at h
      split at h
      · cases h
      · next part s1 e1 hfa =>
          split at h
          · cases h
          · next p2 s2 e2 hrest =>
              simp only [Except.ok.injEq, Prod.mk.injEq] at h
              obtain ⟨hp, -, -⟩ := h
              obtain ⟨hpart, hlen, -⟩ := formatArg_spec a0 s0 e0 part s1 e1 hfa
              cases i with
              | zero =>
                  simp only [List.getElem?_cons_zero, Option.some.injEq] at hi
                  subst hi
                  rw [← hp]
                  simp [hpart, countExtras]
              | succ i' =>
                  simp only [List.getElem?_cons_succ] at hi
                  rw [← hp]
                  simp only [List.getElem?_cons_succ]
                  have := ih s1 e1 p2 s2 e2 hrest i' a hi
                  rw [this]
                  have hc : countExtras (List.take (i' + 1) (a0 :: rest)) =
                      extraCount a0 + countExtras (List.take i' rest) := by
                    simp [countExtras, List.take_succ_cons]
                  rw [hc, hlen]
                  congr 2
                  omega



theorem formatArg_snapshot (o : JSObj) (j : Json) (s0 : List String) (e0 : List Json)
    (part : String) (s1 : List String) (e1 : List Json)
    (he : isErrorLike o = false) (hsnap : o.snapshot = some j)
    (h : formatArg (JSValue.obj o) s0 e0 = Except.ok (part, s1, e1)) :
    e1 = e0 ++ [j] := by
  simp only [formatArg, he, Bool.false_eq_true, if_false, hsnap,
    Except.ok.injEq, Prod.mk.injEq] at h
  exact h.2.2.symm

theorem formatArg_stackpush (o : JSObj) (s0 : List String) (e0 : List Json)
    (part : String) (s1 : List String) (e1 : List Json)
    (he : isErrorLike o = true) (ht : jsStackTruthy o.stack = true)
    (hr : stackResidual o ≠ "")
    (h : formatArg (JSValue.obj o) s0 e0 = Except.ok (part, s1, e1)) :
    s1 = s0 ++ [stackResidual o] := by
  simp only [formatArg, he, if_true, ht, ne_eq, hr, not_false_eq_true,
    Except.ok.injEq, Prod.mk.injEq] at h
  exact h.2.1.symm

theorem processArgs_extra_index (args : List JSValue) (s0 : List String) (e0 : List Json)
    (p s : List String) (e : List Json)
    (h : processArgs args s0 e0 = Except.ok (p, s, e)) :
    ∀ i o j, args[i]? = some (JSValue.obj o) → isErrorLike o = false →
      o.snapshot = some j →
      e[e0.length + countExtras (args.take i)]? = some j := by
  induction args generalizing s0 e0 p s e with
  | nil => intro i o j hi; simp at hi
  | cons a0 rest ih =>
      intro i o j hi hne hsnap
      simp only [processArgs] at h
      split at h
      · cases h
      · next part s1 e1 hfa =>
          split at h
          · cases h
          · next p2 s2 e2 hrest =>
              simp only [Except.ok.injEq, Prod.mk.injEq] at h
              obtain ⟨-, -, hev⟩ := h
              cases i with
              | zero =>
                  simp only [List.getElem?_cons_zero, Option.some.injEq] at hi
                  subst hi
                  have he1 : e1 = e0 ++ [j] :=
                    formatArg_snapshot o j s0 e0 part s1 e1 hne hsnap hfa
                  obtain ⟨ds2, de2, -, he2⟩ := processArgs_append rest s1 e1 p2 s2 e2 hrest
                  rw [← hev, he2, he1]
                  simp only [List.take_zero, countExtras_nil, Nat.add_zero]
                  rw [List.getElem?_append_left (by simp)]
                  exact List.getElem?_concat_length e0 j
              | succ i' =>
                  simp only [List.getElem?_cons_succ] at hi
                  obtain ⟨-, hlen, -⟩ := formatArg_spec a0 s0 e0 part s1 e1 hfa
                  have := ih s1 e1 p2 s2 e2 hrest i' o j hi hne hsnap
                  rw [← hev]
                  have hc : countExtras (List.take (i' + 1) (a0 :: rest)) =
                      extraCount a0 + countExtras (List.take i' rest) := by
                    simp [countExtras, List.take_succ_cons]
                  rw [hc]
                  have harith : e0.length + (extraCount a0 + countExtras (List.take i' rest)) =
                      e1.length + countExtras (List.take i' rest) := by
                    rw [hlen]; omega
                  rw [harith]
                  exact this

theorem processArgs_stack_mem (args : List JSValue) (s0 : List String) (e0 : List Json)
    (p s : List String) (e : List Json)
    (h : processArgs args s0 e0 = Except.ok (p, s, e)) :
    ∀ (i : Nat) (o : JSObj), args[i]? = some (JSValue.obj o) → isErrorLike o = true →
      jsStackTruthy o.stack = true → stackResidual o ≠ "" →
      stackResidual o ∈ s := by
  induction args generalizing s0 e0 p s e with
  | nil => intro i o hi he ht hr; simp at hi
  | cons a0 rest ih =>
      intro i o hi he ht hr
      simp only [processArgs] at h
      split at h
      · cases h
      · next part s1 e1 hfa =>
          split at h
          · cases h
          · next p2 s2 e2 hrest =>
              simp only [Except.ok.injEq, Prod.mk.injEq] at h
              obtain ⟨-, hsv, -⟩ := h
              cases i with
              | zero =>
                  simp only [List.getElem?_cons_zero, Option.some.injEq] at hi
                  subst hi
                  have hs1 : s1 = s0 ++ [stackResidual o] :=
                    formatArg_stackpush o s0 e0 part s1 e1 he ht hr hfa
                  obtain ⟨ds2, de2, hs2, -⟩ := processArgs_append rest s1 e1 p2 s2 e2 hrest
                  rw [← hsv, hs2, hs1]
                  simp
              | succ i' =>
                  simp only [List.getElem?_cons_succ] at hi
                  rw [← hsv]
                  exact ih s1 e1 p2 s2 e2 hrest i' o hi he ht hr

theorem processArgs_no_empty_frames (args : List JSValue) (s0 : List String) (e0 : List Json)
    (p s : List String) (e : List Json)
    (h : processArgs args s0 e0 = Except.ok (p, s, e))
    (h0 : ∀ f ∈ s0, f ≠ "") :
    ∀ f ∈ s, f ≠ "" := by
  induction args generalizing s0 e0 p s e with
  | nil =>
      simp only [processArgs, Except.ok.injEq, Prod.mk.injEq] at h
      rw [← h.2.1]; exact h0
  | cons a0 rest ih =>
      simp only [processArgs] at h
      split at h
      · cases h
      · next part s1 e1 hfa =>
          split at h
          · cases h
          · next p2 s2 e2 hrest =>
              simp only [Except.ok.injEq, Prod.mk.injEq] at h
              obtain ⟨-, hsv, -⟩ := h
              rw [← hsv]
              refine ih s1 e1 p2 s2 e2 hrest ?_
              -- every frame in s1 is a frame of s0 or the guarded push
              intro f hf
              cases a0 with
              | undef =>
                  simp only [formatArg, Except.ok.injEq, Prod.mk.injEq] at hfa
                  rw [← hfa.2.1] at hf; exact h0 f hf
              | str v =>
                  simp only [formatArg, Except.ok.injEq, Prod.mk.injEq] at hfa
                  rw [← hfa.2.1] at hf; exact h0 f hf
              | null => simp [formatArg] at hfa
              | prim v =>
                  simp only [formatArg, Except.ok.injEq, Prod.mk.injEq] at hfa
                  rw [← hfa.2.1] at hf; exact h0 f hf
              | obj o =>
                  by_cases he : isErrorLike o
                  · simp only [formatArg, he, if_true, Except.ok.injEq, Prod.mk.injEq] at hfa
                    by_cases ht : jsStackTruthy o.stack
                    · by_cases hr : stackResidual o = ""
                      · simp only [ht, if_true, hr, ne_eq, not_true_eq_false, if_false] at hfa
                        rw [← hfa.2.1] at hf; exact h0 f hf
                      · simp only [ht, if_true, hr, ne_eq, not_false_eq_true, if_true] at hfa
                        rw [← hfa.2.1] at hf
                        rcases List.mem_append.mp hf with hf0 | hf1
                        · exact h0 f hf0
                        · simp only [List.mem_singleton] at hf1
                          rw [hf1]; exact hr
                    · simp only [ht] at hfa
                      rw [← hfa.2.1] at hf; exact h0 f hf
                  · rw [Bool.not_eq_true] at he
                    simp only [formatArg, he, Bool.false_eq_true, if_false] at hfa
                    cases hs : o.snapshot with
                    | some j =>
                        simp only [hs, Except.ok.injEq, Prod.mk.injEq] at hfa
                        rw [← hfa.2.1] at hf; exact h0 f hf
                    | none =>
                        simp only [hs, Except.ok.injEq, Prod.mk.injEq] at hfa
                        rw [← hfa.2.1] at hf; exact h0 f hf

theorem jsJoin_getElem_substring (l : List String) (i : Nat) (x : String)
    (hi : l[i]? = some x) :
    ∃ pre post, jsJoin " " l = pre ++ x ++ post := by
  induction l generalizing i with
  | nil => simp at hi
  | cons y t ih =>
      cases t with
      | nil =>
          cases i with
          | zero =>
              simp only [List.getElem?_cons_zero, Option.some.injEq] at hi
              subst hi
              exact ⟨"", "", by simp [jsJoin]⟩
          | succ i' => simp at hi
      | cons z t' =>
          cases i with
          | zero =>
              simp only [List.getElem?_cons_zero, Option.some.injEq] at hi
              subst hi
              refine ⟨"", " " ++ jsJoin " " (z :: t'), ?_⟩
              simp [jsJoin, String.append_assoc]
          | succ i' =>
              simp only [List.getElem?_cons_succ] at hi
              obtain ⟨pre, post, hj⟩ := ih i' hi
              refine ⟨y ++ " " ++ pre, post, ?_⟩
              simp only [jsJoin, hj, String.append_assoc]


/-! ## Claims -/

/-- C1 (code bug): the claim states that building the LogRecord for any
argument list — `null` included — completes without raising an exception,
any formatting failure being degraded to a string fallback.  The code
violates this: for the ordinary call `console.log(null)` the error-like
test evaluates `arg.stack` on `null` and throws a `TypeError` that
propagates out of the wrapped console method into the host application.
This theorem evaluates the embedded `createLogEntry` at that failing
input. -/
theorem createLogEntry_null_throws :
    createLogEntry "log" "unknown" [JSValue.null] =
      Except.error "TypeError: cannot read properties of null (reading stack)" :=
  rfl

/-- C2: for every logging call and every non-string, non-error-like,
non-null object argument whose JSON round-trip succeeds, the record's
message is the space-join of per-argument segments in argument order, the
segment standing for that argument is exactly the positional placeholder
`[extra#n]` (never the literal object value), where `n` is the argument's
1-based position among that call's extra arguments, `extra[n-1]` is the
round-tripped value, and the placeholder occurs in the message. -/
theorem createLogEntry_extra_placeholder
    (level moduleCtx : String) (args : List JSValue) (i : Nat) (o : JSObj)
    (j : Json) (entry : LogEntry)
    (hi : args[i]? = some (JSValue.obj o))
    (hne : isErrorLike o = false)
    (hsnap : o.snapshot = some j)
    (hok : createLogEntry level moduleCtx args = Except.ok entry) :
    ∃ parts : List String,
      entry.message = jsJoin " " parts ∧
      parts[i]? = some (placeholderStr (countExtras (args.take i) + 1)) ∧
      entry.extra[countExtras (args.take i)]? = some j ∧
      ∃ pre post,
        entry.message = pre ++ placeholderStr (countExtras (args.take i) + 1) ++ post := by
  unfold createLogEntry at hok
  split at hok
  · cases hok
  · next p sv ev hp =>
      simp only [Except.ok.injEq] at hok
      have hpart := processArgs_parts args [] [] p sv ev hp i (JSValue.obj o) hi
      have hpf : partFor (JSValue.obj o) (List.length ([] : List Json) +
          countExtras (args.take i)) = placeholderStr (countExtras (args.take i) + 1) := by
        simp [partFor, hne]
      rw [hpf] at hpart
      have hext := processArgs_extra_index args [] [] p sv ev hp i o j hi hne hsnap
      simp only [List.length_nil, Nat.zero_add] at hext
      obtain ⟨pre, post, hjoin⟩ := jsJoin_getElem_substring p i _ hpart
      refine ⟨p, ?_, hpart, ?_, pre, post, ?_⟩
      · rw [← hok]
      · rw [← hok]; exact hext
      · rw [← hok]; exact hjoin

/-- Witness for C2 at the concrete call
`console.log("hello", {a: 1})` (the object round-trips to itself). -/
theorem createLogEntry_extra_placeholder_witness :
    ∃ parts : List String,
      ("hello [extra#1]" : String) = jsJoin " " parts ∧
      parts[1]? = some "[extra#1]" ∧
      ([Json.obj [("a", Json.num 1)]] : List Json)[0]? = some (Json.obj [("a", Json.num 1)]) ∧
      ∃ pre post, ("hello [extra#1]" : String) = pre ++ "[extra#1]" ++ post :=
  createLogEntry_extra_placeholder "log" "m"
    [JSValue.str "hello",
     JSValue.obj ⟨false, StackField.absent, "[object Object]", some (Json.obj [("a", Json.num 1)])⟩]
    1 ⟨false, StackField.absent, "[object Object]", some (Json.obj [("a", Json.num 1)])⟩
    (Json.obj [("a", Json.num 1)])
    { level := "log", message := "hello [extra#1]", module := "m",
      stackTraces := [], extra := [Json.obj [("a", Json.num 1)]] }
    rfl rfl rfl rfl

/-- C4 counterexample: the claim asserts that for every error-like
argument the record's stackFrames is non-empty, but an `Error` instance
whose `stack` property is undefined (`StackField.absent` — the
`if (arg.stack)` truthiness test fails) produces an entry with empty
`stacks`; the same happens when the stack text equals the error's string
form exactly, so that stripping leaves nothing. -/
theorem errorlike_empty_stackframes :
    createLogEntry "error" "m"
        [JSValue.obj ⟨true, StackField.absent, "Error: boom", none⟩] =
      Except.ok
        { level := "error", message := "Error: boom", module := "m",
          stackTraces := [], extra := [] } :=
  rfl

/-- C4 (amended): for every error-like argument, the message segment in
that argument's position is the error's own string form; every frame ever
appended to `stacks` is non-empty; and when the argument's stack property
is truthy and the stack text — after stripping one leading copy of the
error's string form (when present) and trimming leading whitespace — is
non-empty, that stripped residual is what `stacks` contains for this
argument.  (The unamended "stackFrames is non-empty" fails when the stack
property is falsy or the residual is empty.) -/
theorem createLogEntry_errorlike
    (level moduleCtx : String) (args : List JSValue) (i : Nat) (o : JSObj)
    (entry : LogEntry)
    (hi : args[i]? = some (JSValue.obj o))
    (he : isErrorLike o = true)
    (hok : createLogEntry level moduleCtx args = Except.ok entry) :
    (∃ parts : List String,
      entry.message = jsJoin " " parts ∧ parts[i]? = some o.toStr) ∧
    (∀ f ∈ entry.stackTraces, f ≠ "") ∧
    (jsStackTruthy o.stack = true → stackResidual o ≠ "" →
      stackResidual o ∈ entry.stackTraces) := by
  unfold createLogEntry at hok
  split at hok
  · cases hok
  · next p sv ev hp =>
      simp only [Except.ok.injEq] at hok
      have hpart := processArgs_parts args [] [] p sv ev hp i (JSValue.obj o) hi
      have hpf : partFor (JSValue.obj o) (List.length ([] : List Json) +
          countExtras (args.take i)) = o.toStr := by
        simp [partFor, he]
      rw [hpf] at hpart
      refine ⟨⟨p, ?_, hpart⟩, ?_, ?_⟩
      · rw [← hok]
      · rw [← hok]
        exact processArgs_no_empty_frames args [] [] p sv ev hp (by simp)
      · intro ht hr
        rw [← hok]
        exact processArgs_stack_mem args [] [] p sv ev hp i o hi he ht hr

/-- Witness for C4 at the concrete call `console.error(err)` where the
error stringifies to `Error: boom` and carries the stack text
`Error: boom\n  at f`. -/
theorem createLogEntry_errorlike_witness :
    (∃ parts : List String,
      ("Error: boom" : String) = jsJoin " " parts ∧ parts[0]? = some "Error: boom") ∧
    (("at f" : String) ∈ (["at f"] : List String)) := by
  have h := createLogEntry_errorlike "error" "m"
    [JSValue.obj ⟨true, StackField.strVal "Error: boom\n  at f", "Error: boom", none⟩] 0
    ⟨true, StackField.strVal "Error: boom\n  at f", "Error: boom", none⟩
    { level := "error", message := "Error: boom", module := "m",
      stackTraces := ["at f"], extra := [] }
    rfl rfl rfl
  exact ⟨h.1, h.2.2 rfl (by decide)⟩

/-! ## Lemmas about the batching transport -/

/-- Below the threshold, `addToBuffer` never flushes. -/
theorem addToBuffer_small (st : BufferState) (e : LogEntry)
    (h : st.buffer.length + 1 < MAX_BUFFER_SIZE) :
    addToBuffer st e =
      if st.timerPending then { st with buffer := st.buffer ++ [e] }
      else { st with buffer := st.buffer ++ [e], timerPending := true } := by
  unfold addToBuffer
  have hlt : ¬ MAX_BUFFER_SIZE ≤ (st.buffer ++ [e]).length := by
    simp only [List.length_append, List.length_cons, List.length_nil]
    omega
  simp only [hlt, if_false]

/-- At the threshold, `addToBuffer` flushes the pushed buffer. -/
theorem addToBuffer_flush (st : BufferState) (e : LogEntry)
    (h : MAX_BUFFER_SIZE ≤ st.buffer.length + 1) :
    addToBuffer st e = flushLogs { st with buffer := st.buffer ++ [e] } := by
  unfold addToBuffer
  have hge : MAX_BUFFER_SIZE ≤ (st.buffer ++ [e]).length := by
    simp only [List.length_append, List.length_cons, List.length_nil]
    omega
  simp only [hge, if_true]

/-- While a timer is pending and the buffer stays below the threshold,
enqueuing only appends. -/
theorem enqueueAll_pending (es : List LogEntry) (buf : List LogEntry)
    (fl : List (List LogEntry)) (hlen : buf.length + es.length ≤ 49) :
    enqueueAll { buffer := buf, timerPending := true, flushes := fl } es =
      { buffer := buf ++ es, timerPending := true, flushes := fl } := by
  induction es generalizing buf with
  | nil => simp [enqueueAll]
  | cons e rest ih =>
      have hstep : addToBuffer { buffer := buf, timerPending := true, flushes := fl } e =
          { buffer := buf ++ [e], timerPending := true, flushes := fl } := by
        rw [addToBuffer_small]
        · rfl
        · simp only [List.length_cons] at hlen ⊢
          simp [MAX_BUFFER_SIZE]
          omega
      have : enqueueAll { buffer := buf, timerPending := true, flushes := fl } (e :: rest) =
          enqueueAll { buffer := buf ++ [e], timerPending := true, flushes := fl } rest := by
        simp [enqueueAll, hstep]
      rw [this, ih (buf ++ [e]) (by simp at hlen ⊢; omega)]
      simp

/-- Enqueuing a non-empty sequence of at most 49 records into the empty
transport leaves them buffered with one pending timer and no flush. -/
theorem enqueueAll_small (gs : List LogEntry) (hne : gs ≠ []) (hlen : gs.length ≤ 49) :
    enqueueAll initialBufferState gs =
      { buffer := gs, timerPending := true, flushes := [] } := by
  cases gs with
  | nil => exact absurd rfl hne
  | cons g rest =>
      have hstep : addToBuffer initialBufferState g =
          { buffer := [g], timerPending := true, flushes := [] } := by
        rw [addToBuffer_small]
        · rfl
        · simp [initialBufferState, MAX_BUFFER_SIZE]
      have h1 : enqueueAll initialBufferState (g :: rest) =
          enqueueAll { buffer := [g], timerPending := true, flushes := [] } rest := by
        simp [enqueueAll, hstep]
      rw [h1, enqueueAll_pending rest [g] [] (by simp at hlen ⊢; omega)]
      simp

/-! ## Claims about the batching transport -/

/-- C5: starting from the empty queue, enqueuing exactly 50 records (the
fixed `MAX_BUFFER_SIZE` threshold) triggers an immediate flush of the
whole batch leaving an empty buffer and no pending timer; enqueuing 49
leaves all 49 buffered, exactly one pending timer and no flush; and while
a timer is pending a new record either flushes (at the threshold) or only
appends — a new timer is never scheduled while one is pending. -/
theorem buffer_threshold_behavior (es fs : List LogEntry)
    (h50 : es.length = 50) (h49 : fs.length = 49) :
    enqueueAll initialBufferState es =
      { buffer := [], timerPending := false, flushes := [es] } ∧
    enqueueAll initialBufferState fs =
      { buffer := fs, timerPending := true, flushes := [] } ∧
    (∀ (st : BufferState) (e : LogEntry), st.timerPending = true →
      addToBuffer st e = flushLogs { st with buffer := st.buffer ++ [e] } ∨
      addToBuffer st e = { st with buffer := st.buffer ++ [e] }) := by
  refine ⟨?_, enqueueAll_small fs (by intro hh; rw [hh] at h49; cases h49) (by omega), ?_⟩
  · have hne : es ≠ [] := by intro hh; rw [hh] at h50; cases h50
    have hsplit := List.dropLast_append_getLast hne
    have hdl : es.dropLast.length = 49 := by
      rw [List.length_dropLast, h50]
    have hfold : enqueueAll initialBufferState es =
        addToBuffer (enqueueAll initialBufferState es.dropLast) (es.getLast hne) := by
      conv_lhs => rw [← hsplit]
      simp [enqueueAll, List.foldl_append]
    rw [hfold, enqueueAll_small es.dropLast
          (by intro hh; rw [hh] at hdl; cases hdl) (by omega),
        addToBuffer_flush _ _ (by simp [hdl, MAX_BUFFER_SIZE])]
    have hbuf : es.dropLast ++ [es.getLast hne] = es := hsplit
    simp only [hbuf]
    unfold flushLogs
    have : ¬ es.length = 0 := by omega
    simp [this]
  · intro st e ht
    by_cases hlen : MAX_BUFFER_SIZE ≤ st.buffer.length + 1
    · exact Or.inl (addToBuffer_flush st e hlen)
    · refine Or.inr ?_
      rw [addToBuffer_small st e (by omega), if_pos ht]

/-- Witness for C5 with two concrete batches of trivial records. -/
theorem buffer_threshold_behavior_witness :
    enqueueAll initialBufferState (List.replicate 50 sampleEntry) =
      { buffer := [], timerPending := false,
        flushes := [List.replicate 50 sampleEntry] } ∧
    enqueueAll initialBufferState (List.replicate 49 sampleEntry) =
      { buffer := List.replicate 49 sampleEntry, timerPending := true,
        flushes := [] } :=
  ⟨(buffer_threshold_behavior (List.replicate 50 sampleEntry)
      (List.replicate 49 sampleEntry) (by simp) (by simp)).1,
   (buffer_threshold_behavior (List.replicate 50 sampleEntry)
      (List.replicate 49 sampleEntry) (by simp) (by simp)).2.1⟩

/-- C6 counterexample: the claim says that in the time units in which the
coalescing delay is 100, the safety-net timer fires every 10 units and
bounds staleness below the coalescing delay.  In the source both constants
are milliseconds: the delay is 100 and the `setInterval` period is 10000 —
not 10, and not below the delay. -/
theorem safety_interval_not_ten :
    FLUSH_DELAY = 100 ∧ safetyFlushInterval ≠ 10 ∧
      ¬ safetyFlushInterval < FLUSH_DELAY := by
  refine ⟨rfl, by decide, by decide⟩

/-- C6 (amended): measured in the units in which the coalescing flush
delay is 100 (milliseconds), the recurring safety-net timer fires every
10000 units — one hundred times the coalescing delay, bounding staleness
by 10 seconds rather than below the delay. -/
theorem safety_interval_value :
    FLUSH_DELAY = 100 ∧ safetyFlushInterval = 10000 ∧
      safetyFlushInterval = 100 * FLUSH_DELAY := by
  refine ⟨rfl, rfl, by decide⟩

/-- C7 counterexample: a delivery failure in the form of a non-2xx
response (here 500) with silencing disabled and a console available emits
no warning — the fetch promise resolves, the code never inspects the
status — refuting the claimed "warning if and only if silencing is not
configured" over all delivery failures. -/
theorem non2xx_no_warning :
    sendLogs false true (FetchOutcome.ok 500) [] = false := rfl

/-- C7 (amended): a flushed batch is removed from the queue before the
send and is never re-queued or retried, whatever the delivery outcome (the
transport exposes no path from `sendLogs` back to the buffer); the local
warning fires iff the fetch itself rejects — network error or server
absent — while silencing is off and a console.warn exists; a resolved
fetch with a non-2xx status is not detected as a failure and never warns. -/
theorem delivery_failure_handling
    (silentOnError consoleWarnAvail : Bool) (outcome : FetchOutcome)
    (logs : List LogEntry) (st : BufferState) (hne : st.buffer ≠ []) :
    (sendLogs silentOnError consoleWarnAvail outcome logs = true ↔
      outcome = FetchOutcome.networkError ∧ silentOnError = false ∧
        consoleWarnAvail = true) ∧
    flushLogs st =
      { buffer := [], timerPending := false, flushes := st.flushes ++ [st.buffer] } := by
  constructor
  · cases outcome with
    | ok status => simp [sendLogs]
    | networkError =>
        simp [sendLogs, Bool.and_eq_true, Bool.not_eq_true']
  · unfold flushLogs
    have : ¬ st.buffer.length = 0 := by
      simp [List.length_eq_zero, hne]
    simp [this]

/-- Witness for C7 at a network error with silencing off. -/
theorem delivery_failure_handling_witness :
    (sendLogs false true FetchOutcome.networkError [] = true ↔
      FetchOutcome.networkError = FetchOutcome.networkError ∧ false = false ∧
        true = true) ∧
    flushLogs { buffer := [sampleEntry], timerPending := true, flushes := [] } =
      { buffer := [], timerPending := false, flushes := [[sampleEntry]] } :=
  delivery_failure_handling false true FetchOutcome.networkError []
    { buffer := [sampleEntry], timerPending := true, flushes := [] }
    (by simp)

/-! ## Lemmas about the ingestion endpoint -/

/-- Creating or reusing a sink never touches the call log. -/
theorem getOrCreateLogger_calls (st : ServerState) (k : String) :
    (getOrCreateLogger st k).calls = st.calls := by
  unfold getOrCreateLogger
  split <;> rfl

/-- After `getOrCreateLogger`, the key is present. -/
theorem getOrCreateLogger_mem (st : ServerState) (k : String) :
    k ∈ (getOrCreateLogger st k).sinks := by
  unfold getOrCreateLogger
  split
  · assumption
  · simp

/-- A batch of well-formed records is processed without a throw. -/
theorem processRecords_all_good (st : ServerState) (rs : List RecordVal)
    (h : ∀ r ∈ rs, r ≠ RecordVal.bad) :
    (processRecords st rs).2 = false := by
  induction rs generalizing st with
  | nil => rfl
  | cons r rest ih =>
      cases r with
      | bad => exact absurd rfl (h RecordVal.bad (by simp))
      | good log =>
          simp only [processRecords, processRecord]
          exact ih _ (fun r hr => h r (List.mem_cons_of_mem _ hr))

/-! ## Claims about the ingestion endpoint -/

/-- C3 counterexample: the claim says a 400 response implies no record of
the batch was forwarded to any sink.  A batch whose second element is
`null` makes the `forEach` callback throw after the first record has
already been dispatched: the endpoint answers 400, yet one sink call has
happened — partial processing. -/
theorem ingest_400_partial_forwarding :
    ((handleEnd { sinks := [], calls := [] }
        (ParsedBody.logsArr [RecordVal.good sampleWireLog, RecordVal.bad])).2.status
      = 400) ∧
    ((handleEnd { sinks := [], calls := [] }
        (ParsedBody.logsArr [RecordVal.good sampleWireLog, RecordVal.bad])).1.calls.length
      = 1) :=
  ⟨rfl, rfl⟩

/-- C3 (amended): every 400 response carries the body
`{"error":"Invalid JSON"}`.  When the failure precedes record iteration —
a body that is not valid JSON, or a valid-JSON body whose shape makes
`logs.forEach` throw before visiting any record — no record is forwarded
and the server state is unchanged.  (When the callback throws mid-batch,
the records already iterated have been forwarded, still with the same 400;
see the counterexample.)  A batch of well-formed records never takes the
400 path. -/
theorem ingest_400_invalid_json (st : ServerState) (body : ParsedBody) :
    ((handleEnd st body).2.status = 400 →
      (handleEnd st body).2.body = invalidJsonBody) ∧
    (body = ParsedBody.notJson →
      handleEnd st body = (st, { status := 400, body := invalidJsonBody })) ∧
    (body = ParsedBody.badShape →
      handleEnd st body = (st, { status := 400, body := invalidJsonBody })) ∧
    (∀ rs, body = ParsedBody.logsArr rs → (∀ r ∈ rs, r ≠ RecordVal.bad) →
      (handleEnd st body).2.status = 200) := by
  refine ⟨?_, ?_, ?_, ?_⟩
  · intro h400
    cases body with
    | notJson => rfl
    | badShape => rfl
    | logsArr rs =>
        simp only [handleEnd] at h400 ⊢
        by_cases hb : (processRecords st rs).2
        · simp [hb]
        · simp [hb] at h400
  · intro hb; subst hb; rfl
  · intro hb; subst hb; rfl
  · intro rs hb hgood
    subst hb
    simp only [handleEnd]
    have hng := processRecords_all_good st rs hgood
    simp [hng]

/-- Witness for C3: an unparsable body leaves the state untouched with the
fixed 400 body, and a batch of one well-formed record answers 200. -/
theorem ingest_400_invalid_json_witness :
    ((handleEnd { sinks := [], calls := [] } ParsedBody.notJson).2.body
      = invalidJsonBody) ∧
    (handleEnd { sinks := [], calls := [] } ParsedBody.notJson =
      ({ sinks := [], calls := [] },
        { status := 400, body := invalidJsonBody })) ∧
    ((handleEnd { sinks := [], calls := [] }
        (ParsedBody.logsArr [RecordVal.good sampleWireLog])).2.status = 200) := by
  have h := ingest_400_invalid_json { sinks := [], calls := [] } ParsedBody.notJson
  have h2 := ingest_400_invalid_json { sinks := [], calls := [] }
    (ParsedBody.logsArr [RecordVal.good sampleWireLog])
  refine ⟨h.1 rfl, h.2.1 rfl, h2.2.2.2 [RecordVal.good sampleWireLog] rfl ?_⟩
  intro r hr
  rw [List.mem_singleton] at hr
  subst hr
  intro hcon
  cases hcon

/-- C8: for every ingested record, sink dispatch is determined by the
level: `error` goes to the error channel with a synthetic error built from
the newline-joined stack frames when any exist and `null` otherwise,
`warn` to the warn channel, `info` and `debug` both to the info channel,
and any other level value defaults to the info channel. -/
theorem level_dispatch (st : ServerState) (log : WireLog) (st' : ServerState)
    (hok : processRecord st (RecordVal.good log) = some st') :
    ∃ c : SinkCall,
      st'.calls = st.calls ++ [(moduleKeyOf log, c)] ∧
      (log.level = "error" → stacksListOf log ≠ [] →
        c = SinkCall.errorCall (formatMsg log)
              (some (jsJoin "\n" (stacksListOf log)))) ∧
      (log.level = "error" → stacksListOf log = [] →
        c = SinkCall.errorCall (formatMsg log) none) ∧
      (log.level = "warn" → c = SinkCall.warnCall (formatMsg log)) ∧
      (log.level = "info" ∨ log.level = "debug" →
        c = SinkCall.infoCall (formatMsg log)) ∧
      (log.level ≠ "error" → log.level ≠ "warn" → log.level ≠ "info" →
        log.level ≠ "debug" → c = SinkCall.infoCall (formatMsg log)) := by
  simp only [processRecord, Option.some.injEq] at hok
  refine ⟨dispatchCall log, ?_, ?_, ?_, ?_, ?_, ?_⟩
  · rw [← hok]
    simp [getOrCreateLogger_calls]
  · intro h1 h2
    have hp := List.length_pos.mpr h2
    simp [dispatchCall, h1, hp]
  · intro h1 h2
    simp [dispatchCall, h1, h2]
  · intro h1
    have hne : ("warn" : String) ≠ "error" := by decide
    simp [dispatchCall, h1, hne]
  · rintro (h1 | h1)
    · have hne1 : ("info" : String) ≠ "error" := by decide
      have hne2 : ("info" : String) ≠ "warn" := by decide
      simp [dispatchCall, h1, hne1, hne2]
    · have hne1 : ("debug" : String) ≠ "error" := by decide
      have hne2 : ("debug" : String) ≠ "warn" := by decide
      have hne3 : ("debug" : String) ≠ "info" := by decide
      simp [dispatchCall, h1, hne1, hne2, hne3]
  · intro h1 h2 h3 h4
    simp [dispatchCall, h1, h2, h3, h4]

/-- Witness for C8 at a concrete warn record: the dispatched call goes to
the warn channel. -/
theorem level_dispatch_witness :
    ∃ c : SinkCall,
      ({ sinks := ["m"], calls := [("m", SinkCall.warnCall "[warn] w")] } :
          ServerState).calls =
        ({ sinks := [], calls := [] } : ServerState).calls ++
          [(moduleKeyOf sampleWarnLog, c)] ∧
      c = SinkCall.warnCall (formatMsg sampleWarnLog) := by
  obtain ⟨c, h1, -, -, h4, -, -⟩ := level_dispatch { sinks := [], calls := [] }
    sampleWarnLog
    { sinks := ["m"], calls := [("m", SinkCall.warnCall "[warn] w")] } rfl
  exact ⟨c, h1, h4 rfl⟩

/-- C10: a record whose module field is absent, null or empty routes to
the sink named `unknown`; sink creation is lazy and idempotent by key
(a present key is reused unchanged, a new key is appended once, and no
duplicate keys ever arise), and each processed record dispatches exactly
one call through its module key, which is present among the sinks
afterwards. -/
theorem module_routing (st : ServerState) (log : WireLog) (key : String) :
    ((log.module = none ∨ log.module = some "") → moduleKeyOf log = "unknown") ∧
    (key ∈ st.sinks → getOrCreateLogger st key = st) ∧
    (key ∉ st.sinks → (getOrCreateLogger st key).sinks = st.sinks ++ [key]) ∧
    (st.sinks.Nodup → (getOrCreateLogger st key).sinks.Nodup) ∧
    (∃ st' c, processRecord st (RecordVal.good log) = some st' ∧
      st'.calls = st.calls ++ [(moduleKeyOf log, c)] ∧
      st'.sinks = (getOrCreateLogger st (moduleKeyOf log)).sinks ∧
      moduleKeyOf log ∈ st'.sinks) := by
  refine ⟨?_, ?_, ?_, ?_, ?_⟩
  · rintro (h | h) <;> simp [moduleKeyOf, h]
  · intro h; simp [getOrCreateLogger, h]
  · intro h; simp [getOrCreateLogger, h]
  · intro hnd
    unfold getOrCreateLogger
    split
    · exact hnd
    · next hmem =>
        simp [List.nodup_append, hnd, hmem]
  · refine ⟨_, dispatchCall log, rfl, ?_, ?_, ?_⟩
    · simp [processRecord, getOrCreateLogger_calls]
    · simp [processRecord]
    · simp only [processRecord]
      exact getOrCreateLogger_mem st (moduleKeyOf log)

/-- Witness for C10: the empty-string module routes to `unknown`; creating
`unknown` twice reuses the sink, creating it on the empty cache appends
it. -/
theorem module_routing_witness :
    moduleKeyOf sampleEmptyModuleLog = "unknown" ∧
    getOrCreateLogger { sinks := ["unknown"], calls := [] } "unknown" =
      { sinks := ["unknown"], calls := [] } ∧
    (getOrCreateLogger { sinks := [], calls := [] } "unknown").sinks =
      ([] : List String) ++ ["unknown"] := by
  have h := module_routing { sinks := ["unknown"], calls := [] }
    sampleEmptyModuleLog "unknown"
  have h2 := module_routing { sinks := [], calls := [] }
    sampleEmptyModuleLog "unknown"
  exact ⟨h.1 (Or.inr rfl), h.2.1 (by simp), h2.2.2.1 (by simp)⟩

/-- C9: bootstrap injection is idempotent — an artifact (script or HTML)
already containing the activation marker `virtual:console-forward` is left
unchanged by both hooks (they return undefined, keeping the original
artifact), so the bootstrap is never injected twice. -/
theorem inject_idempotent (enabled : Bool)
    (isMatch : String → List String → Bool)
    (injectPatterns excludePatterns : List String)
    (moduleExtractor : String → String) (code id html fname : String)
    (hc : jsIncludes code forwardModuleId = true)
    (hh : jsIncludes html forwardModuleId = true) :
    transform enabled isMatch injectPatterns excludePatterns
        moduleExtractor code id = none ∧
    transformIndexHtml enabled isMatch injectPatterns excludePatterns
        moduleExtractor html fname = none := by
  constructor
  · unfold transform
    split_ifs <;> rfl
  · unfold transformIndexHtml
    split_ifs <;> rfl

/-- Witness for C9 with concrete artifacts that already carry the
marker. -/
theorem inject_idempotent_witness :
    transform true (fun _ _ => true) ["**/*.html"] [] (fun _ => "mod")
        "import \x27virtual:console-forward\x27;" "/src/a/b.ts" = none ∧
    transformIndexHtml true (fun _ _ => true) ["**/*.html"] []
        (fun _ => "mod") "<html>virtual:console-forward</html>"
        "/index.html" = none :=
  inject_idempotent true (fun _ _ => true) ["**/*.html"] [] (fun _ => "mod")
    "import \x27virtual:console-forward\x27;" "/src/a/b.ts"
    "<html>virtual:console-forward</html>" "/index.html" rfl rfl

end ConsoleForward
